import Mathlib

/-!
Verification development for the PDF extraction pipeline
(`pages/api` handler: `extractText`, `extractImages`, `performOCR`,
`createMetadata`, `handler`).

Strings are modelled as `List Char`.  The JavaScript whitespace class
(`\s`, and the class trimmed by `String.prototype.trim`) is modelled by
`jsWs` below, restricted to the common ASCII whitespace characters plus
NBSP; tokens in the claims only involve these.
-/

namespace PdfExtractor

/-- JS whitespace class (ASCII part plus NBSP), as matched by `/\s/` and
trimmed by `String.prototype.trim`. -/
def jsWs (c : Char) : Bool :=
  c == ' ' || c == '\t' || c == '\n' || c == '\r' ||
  c == '\x0b' || c == '\x0c' || c == ' '

/-- JS `String.prototype.trim`: drop leading and trailing whitespace. -/
def jsTrim (s : List Char) : List Char :=
  ((s.dropWhile jsWs).reverse.dropWhile jsWs).reverse

/-- The regex test `/[.!?]$/.test(text)` from `extractText`. -/
def endsPunct (s : List Char) : Bool :=
  match s.getLast? with
  | some '.' => true
  | some '!' => true
  | some '?' => true
  | _ => false

/-- The regex test `/\s$/.test(text)` from `extractText`. -/
def endsWs (s : List Char) : Bool :=
  match s.getLast? with
  | some c => jsWs c
  | none => false

/-- One step of the reducer in `extractText`:
`if (/[.!?]$/.test(text)) return text + ' ' + word;
 return /\s$/.test(text) ? text + word : text + ' ' + word;`. -/
def spaceStep (text word : List Char) : List Char :=
  if endsPunct text then text ++ ' ' :: word
  else if endsWs text then text ++ word
  else text ++ ' ' :: word

/-- The reduction `content.items.map(item => item.str).reduce(spaceStep, '')`:
the per-page string built by `extractText` (before any trimming). -/
def reconstructPage (items : List (List Char)) : List Char :=
  items.foldl spaceStep []

/-- Embedding of `extractText`: fold pages, appending `pageText + '\n\n'` for each page,
then trim the full concatenation. -/
def extractText (pages : List (List (List Char))) : List Char :=
  jsTrim (pages.foldl (fun full p => full ++ reconstructPage p ++ ['\n', '\n']) [])

/-- JS `Array.prototype.join(sep)` (separator between elements). -/
def joinSep (sep : List Char) : List (List Char) → List Char
  | [] => []
  | [x] => x
  | x :: y :: xs => x ++ sep ++ joinSep sep (y :: xs)

/-- Modelled from the spec: the Text Reconstructor as §4.1 words it —
trim each page string, join the per-page strings with exactly one blank
line between them, trim the final joined string.  (The source's
`extractText` above is the authority; this definition exists only to be
compared with it.) -/
def specExtractText (pages : List (List (List Char))) : List Char :=
  jsTrim (joinSep ['\n', '\n'] (pages.map (fun p => jsTrim (reconstructPage p))))

/-- No two consecutive space characters. -/
def noDoubleSpace (s : List Char) : Prop :=
  List.Chain' (fun a b => ¬(a = ' ' ∧ b = ' ')) s

/-! ## Raster extraction (`extractImages`) -/

/-- The `type` field of an extracted image: `'page'` (full-page render) or
`'image'` (embedded raster object). -/
inductive ImgKind
  | page
  | image
deriving DecidableEq

/-- One entry of the `images` array built by `extractImages`. -/
structure ExtractedImage where
  data : String
  type : ImgKind
  pageNumber : Nat
  width : Nat
  height : Nat
deriving DecidableEq

/-- An embedded raster object as resolved from `page.objs.get`:
`hasData` models truthiness of `image.data`; `payload` stands for the
base64 PNG encoding the canvas round-trip produces from it. -/
structure EmbObj where
  hasData : Bool
  width : Nat
  height : Nat
  payload : String
deriving DecidableEq

/-- Result of `page.render` on the 2×-scaled viewport (payload is the
base64 PNG of the page render, with the viewport dimensions). -/
structure PageRender where
  payload : String
  width : Nat
  height : Nat
deriving DecidableEq

/-- The view of one parsed page that the pipeline consumes:
`textItems` are the `item.str` fragments of `getTextContent`;
`embedded` are the resolved image-paint operands of the operator list
(`none` = the per-image `try` block threw, or the object resolved to
nothing — caught and skipped); `render` is the full-page render
(`none` = the per-page `try` block threw — caught and skipped). -/
structure PDFPage where
  textItems : List (List Char)
  embedded : List (Option EmbObj)
  render : Option PageRender
deriving DecidableEq

/-- A parsed document (`pdfjs.getDocument`), pages in order 1..numPages. -/
structure PDFDoc where
  pages : List PDFPage
deriving DecidableEq

/-- The comparator passed to `images.sort`:
`a.pageNumber - b.pageNumber` when pages differ, else
`a.type === 'page' ? -1 : 1`. -/
def cmpImg (a b : ExtractedImage) : Int :=
  if a.pageNumber ≠ b.pageNumber then (a.pageNumber : Int) - (b.pageNumber : Int)
  else if a.type = ImgKind.page then -1 else 1

/-- Whether `a` may stay before `b` for the comparator: `cmpImg a b ≤ 0`. -/
def imgLe (a b : ExtractedImage) : Bool :=
  decide (cmpImg a b ≤ 0)

/-- Stable insertion of one element into a sorted prefix. -/
def insertS (a : ExtractedImage) : List ExtractedImage → List ExtractedImage
  | [] => [a]
  | b :: bs => if imgLe a b then a :: b :: bs else b :: insertS a bs

/-- JS `Array.prototype.sort(cmpImg)`, modelled as a stable insertion sort
over the `cmpImg ≤ 0` relation. -/
def jsSort : List ExtractedImage → List ExtractedImage
  | [] => []
  | a :: as => insertS a (jsSort as)

/-- The images pushed while processing page `i`: first the embedded
objects surviving the `image && image.data && image.width && image.height
&& image.width > 50 && image.height > 50` filter, then the full-page
render (when it did not throw). -/
def pageExtracted (i : Nat) (p : PDFPage) : List ExtractedImage :=
  (p.embedded.filterMap fun o =>
    match o with
    | none => none
    | some e =>
      if e.hasData = true ∧ 50 < e.width ∧ 50 < e.height then
        some ⟨e.payload, ImgKind.image, i, e.width, e.height⟩
      else none) ++
  (match p.render with
   | none => []
   | some pr => [⟨pr.payload, ImgKind.page, i, pr.width, pr.height⟩])

/-- Pages paired with their 1-based page numbers. -/
def enumFrom (n : Nat) : List PDFPage → List (Nat × PDFPage)
  | [] => []
  | p :: ps => (n, p) :: enumFrom (n + 1) ps

/-- Concatenation of per-page image lists, in page order. -/
def rawImages (doc : PDFDoc) : List ExtractedImage :=
  (enumFrom 1 doc.pages).foldr (fun ip acc => pageExtracted ip.1 ip.2 ++ acc) []

/-- The `{ images }` object returned by `extractImages`. -/
structure ExtractResult where
  images : List ExtractedImage
deriving DecidableEq

/-- Embedding of `extractImages`: collect per-page images and sort the whole array. -/
def extractImages (doc : PDFDoc) : ExtractResult :=
  ⟨jsSort (rawImages doc)⟩

/-! ## Recognition (`performOCR`) and the request handler -/

/-- Engine lifecycle events of one recognition pass. -/
inductive Ev
  | acquired
  | released
deriving DecidableEq

/-- Embedding of `performOCR` for one image.  `createOk` models whether
`createWorker()` itself succeeds (it runs before the `try`); `load`,
`initLang` and `recog` model the outcomes of `worker.loadLanguage`,
`worker.initialize` and `worker.recognize` inside the `try` block, with
short-circuiting on the first rejection; the `finally` block appends the
`worker.terminate()` event unconditionally.  Returns the recognized text
(or the propagated error) together with the engine-event log. -/
def performOCR (createOk : Bool) (load initLang : Except String Unit)
    (recog : Except String (List Char)) : Except String (List Char) × List Ev :=
  if createOk then
    let body : Except String (List Char) := do
      let _ ← load
      let _ ← initLang
      recog
    (body, [Ev.acquired, Ev.released])
  else
    (Except.error "createWorker failed", [])

/-- The `for (const imageBase64 of ...)` loop of the `ocr` branch:
recognize each image in order, keep the (untrimmed) texts whose trim is
non-empty, stop at the first rejection (which propagates).  Also counts
how many recognition passes ran. -/
def ocrLoopC (recognize : String → Except String (List Char)) :
    List String → Except String (List (List Char)) × Nat
  | [] => (Except.ok [], 0)
  | d :: ds =>
    match recognize d with
    | Except.error e => (Except.error e, 1)
    | Except.ok t =>
      let rest := ocrLoopC recognize ds
      (rest.1.map fun texts => if jsTrim t ≠ [] then t :: texts else texts,
       rest.2 + 1)

/-- The `req.file` object after multer: original name, size, and the parsed document
(the same buffer feeds both `extractText` and `extractImages`). -/
structure FileInfo where
  originalname : List Char
  size : Nat
  doc : PDFDoc

/-- The request surface the handler reads: `req.method`, `req.file`, and
the raw `req.body` fields (absent field = `none`). -/
structure Req where
  method : String
  file : Option FileInfo
  format : Option String
  includeMetadata : Option String
  includeImages : Option String

/-- The object built by `createMetadata`. -/
structure Metadata where
  fileSize : Nat
  filename : List Char
  timestamp : String
  processedWith : String
  extractionMethod : String
deriving DecidableEq

/-- The JSON result object (optional fields absent = `none`). -/
structure ResultObj where
  text : Option (List Char)
  images : Option (List ExtractedImage)
  metadata : Option Metadata
deriving DecidableEq

/-- The HTTP response: either `res.status(s).json({ error })` or
`res.status(200).json(result)`. -/
inductive Resp
  | error (status : Nat) (msg : String)
  | ok (result : ResultObj)
deriving DecidableEq

/-- Which stages ran while serving one request: number of `extractText`
calls, number of `extractImages` calls, the image payloads fed to
recognition, and the number of recognition passes that ran. -/
structure Trace where
  textRuns : Nat
  imageRuns : Nat
  ocrInput : List String
  ocrRuns : Nat
deriving DecidableEq

/-- The fallback `const format = req.body.format || 'text'` (absent or empty string is
falsy and falls back to `'text'`). -/
def resolveFormat (o : Option String) : String :=
  match o with
  | none => "text"
  | some s => if s = "" then "text" else s

/-- The post-switch assembly steps: `if (includeImages && format !==
'images') result.images = extractedImages.images;` then `if
(includeMetadata) result = { ...result, ...createMetadata(...) }`. -/
def assemble (file : FileInfo) (includeImages includeMetadata : Bool)
    (isImagesFmt : Bool) (preImages : Option ExtractResult) (r : ResultObj)
    (pw : String) (now : String) : ResultObj :=
  let r1 := if includeImages ∧ ¬isImagesFmt then
      { r with images := some (preImages.getD ⟨[]⟩).images } else r
  if includeMetadata then
    { r1 with metadata := some ⟨file.size, file.originalname, now, pw, "pdf.js-enhanced"⟩ }
  else r1

/-- The markdown branch's header prefix `# ` + original name + one blank line. -/
def mdHeader (name : List Char) : List Char :=
  '#' :: ' ' :: name ++ ['\n', '\n']

/-- The text view of a parsed document, as `extractText` walks it. -/
def docText (doc : PDFDoc) : List (List (List Char)) :=
  doc.pages.map (·.textItems)

/-- The API handler.  `recognize` is the result of `performOCR` on one
image payload (the external tesseract engine); `now` is the string
`new Date().toISOString()` returns (an ISO-8601 timestamp, produced by
the platform clock).  A rejection inside the `ocr` loop propagates to
the outer `catch`, which answers
`500 / 'Error processing PDF: ' + error.message`. -/
def handler (req : Req) (recognize : String → Except String (List Char))
    (now : String) : Resp × Trace :=
  if req.method ≠ "POST" then (Resp.error 405 "Method not allowed", ⟨0, 0, [], 0⟩)
  else
    match req.file with
    | none => (Resp.error 400 "No PDF file uploaded", ⟨0, 0, [], 0⟩)
    | some file =>
      let format := resolveFormat req.format
      let includeMetadata := req.includeMetadata = some "true"
      let includeImages := req.includeImages = some "true"
      let preImages : Option ExtractResult :=
        if format = "images" ∨ includeImages then some (extractImages file.doc) else none
      let preRuns := if format = "images" ∨ includeImages then 1 else 0
      if format = "text" then
        (Resp.ok (assemble file includeImages includeMetadata false preImages
          ⟨some (extractText (docText file.doc)), none, none⟩ "text" now),
         ⟨1, preRuns, [], 0⟩)
      else if format = "markdown" then
        (Resp.ok (assemble file includeImages includeMetadata false preImages
          ⟨some (mdHeader file.originalname ++ extractText (docText file.doc)), none, none⟩
          "markdown" now),
         ⟨1, preRuns, [], 0⟩)
      else if format = "images" then
        (Resp.ok (assemble file includeImages includeMetadata true preImages
          ⟨none, some (preImages.getD ⟨[]⟩).images, none⟩ "pdf.js-enhanced" now),
         ⟨0, preRuns, [], 0⟩)
      else if format = "ocr" then
        let ei := match preImages with
          | some e => e
          | none => extractImages file.doc
        let extraRun := match preImages with
          | some _ => 0
          | none => 1
        let datas := ei.images.map (·.data)
        match ocrLoopC recognize datas with
        | (Except.error e, n) =>
          (Resp.error 500 ("Error processing PDF: " ++ e), ⟨0, preRuns + extraRun, datas, n⟩)
        | (Except.ok texts, n) =>
          (Resp.ok (assemble file includeImages includeMetadata false preImages
            ⟨some (joinSep ['\n', '\n'] texts), none, none⟩ "pdf.js-enhanced+tesseract.js" now),
           ⟨0, preRuns + extraRun, datas, n⟩)
      else
        (Resp.error 400 "Invalid format specified", ⟨0, preRuns, [], 0⟩)

example : reconstructPage [['H','i'], ['y','o','u','.']] =
    [' ', 'H', 'i', ' ', 'y', 'o', 'u', '.'] := by decide

example : reconstructPage [['a','.'], [' ', 'b']] =
    [' ', 'a', '.', ' ', ' ', 'b'] := by decide

example : extractText [[['a']], [['b']]] = ['a', '\n', '\n', ' ', 'b'] := by decide

example : specExtractText [[['a']], [['b']]] = ['a', '\n', '\n', 'b'] := by decide

example : extractText [] = [] := by decide

example : extractText [[], []] = [] := by decide

example :
    extractImages ⟨[⟨[], [some ⟨true, 40, 40, "e2"⟩, some ⟨true, 100, 100, "e1"⟩],
      some ⟨"p1", 200, 300⟩⟩]⟩ =
    ⟨[⟨"p1", ImgKind.page, 1, 200, 300⟩, ⟨"e1", ImgKind.image, 1, 100, 100⟩]⟩ := by decide

example :
    handler ⟨"POST", some ⟨['f'], 5, ⟨[⟨[[ 'h', 'i']], [], some ⟨"P1", 10, 10⟩⟩]⟩⟩,
        some "xml", none, some "true"⟩ (fun _ => Except.ok []) "t" =
      (Resp.error 400 "Invalid format specified", ⟨0, 1, [], 0⟩) := by decide

example :
    handler ⟨"POST", some ⟨['f'], 5, ⟨[⟨[[ 'h', 'i']], [], some ⟨"P1", 10, 10⟩⟩]⟩⟩,
        none, none, none⟩ (fun _ => Except.ok []) "t" =
      (Resp.ok ⟨some ['h', 'i'], none, none⟩, ⟨1, 0, [], 0⟩) := by decide

example :
    handler ⟨"POST", some ⟨['f'], 5, ⟨[⟨[[ 'h', 'i']], [], some ⟨"P1", 10, 10⟩⟩]⟩⟩,
        some "ocr", none, none⟩ (fun _ => Except.error "boom") "t" =
      (Resp.error 500 "Error processing PDF: boom", ⟨0, 1, ["P1"], 1⟩) := by decide

/-! ## Claim C9: engine release on every exit path of a recognition pass -/

/-- C9: for every recognition pass (`performOCR`), however `createWorker`,
`loadLanguage`, `initialize` and `recognize` turn out, the number of
engines released equals the number acquired — an engine acquired for the
pass is released on every exit path, success or failure. -/
theorem C9_engine_released (createOk : Bool) (load initLang : Except String Unit)
    (recog : Except String (List Char)) :
    ((performOCR createOk load initLang recog).2.count Ev.released) =
      ((performOCR createOk load initLang recog).2.count Ev.acquired) := by
  cases createOk <;> rfl

/-! ## Claim C10: absent or empty format defaults to text -/

/-- C10: a request whose `format` field is absent, and one whose `format`
field is the empty string, are handled exactly like `format = "text"` —
the whole response and stage trace coincide; no invalid-format rejection
occurs. -/
theorem C10_default_format (m : String) (f : Option FileInfo) (im ii : Option String)
    (recognize : String → Except String (List Char)) (now : String) :
    handler ⟨m, f, none, im, ii⟩ recognize now =
        handler ⟨m, f, some "text", im, ii⟩ recognize now ∧
      handler ⟨m, f, some "", im, ii⟩ recognize now =
        handler ⟨m, f, some "text", im, ii⟩ recognize now := by
  have key : ∀ fmt₁ fmt₂ : Option String, resolveFormat fmt₁ = resolveFormat fmt₂ →
      handler ⟨m, f, fmt₁, im, ii⟩ recognize now =
        handler ⟨m, f, fmt₂, im, ii⟩ recognize now := by
    intro fmt₁ fmt₂ he
    unfold handler
    dsimp only
    simp only [he]
  exact ⟨key _ _ (by decide), key _ _ (by decide)⟩

/-! ## Claim C1: fail-fast on invalid format -/

/-- Counterexample to C1: with an invalid format (`"xml"`) and
`includeImages = 'true'`, the handler does answer the validation failure,
but the Raster Extractor has already executed once (`imageRuns = 1`) —
extraction work happens before the invalid-format rejection, contradicting
"no extraction stage executes ... regardless of the includeImages flag". -/
theorem C1_counterexample :
    handler ⟨"POST", some ⟨['f'], 5, ⟨[⟨[[ 'h', 'i']], [], some ⟨"P1", 10, 10⟩⟩]⟩⟩,
        some "xml", none, some "true"⟩ (fun _ => Except.ok []) "t" =
      (Resp.error 400 "Invalid format specified", ⟨0, 1, [], 0⟩) ∧
    (handler ⟨"POST", some ⟨['f'], 5, ⟨[⟨[[ 'h', 'i']], [], some ⟨"P1", 10, 10⟩⟩]⟩⟩,
        some "xml", none, some "true"⟩ (fun _ => Except.ok []) "t").2.imageRuns ≠ 0 := by
  constructor
  · decide
  · decide

/-- C1 as amended: an invalid format is rejected with the validation
failure, and neither text extraction nor recognition runs; however image
extraction runs (once) before the rejection exactly when
`includeImages = 'true'` — the fail-fast guarantee holds for every stage
except the Raster Extractor, which the handler may invoke first. -/
theorem C1_amended (file : FileInfo) (fmt : String) (im ii : Option String)
    (recognize : String → Except String (List Char)) (now : String)
    (h0 : fmt ≠ "") (h1 : fmt ≠ "text") (h2 : fmt ≠ "markdown")
    (h3 : fmt ≠ "images") (h4 : fmt ≠ "ocr") :
    handler ⟨"POST", some file, some fmt, im, ii⟩ recognize now =
      (Resp.error 400 "Invalid format specified",
       ⟨0, if ii == some "true" then 1 else 0, [], 0⟩) := by
  unfold handler resolveFormat
  simp +decide [h0, h1, h2, h3, h4]

/-- Witness for C1 as amended, at `fmt = "xml"`, `includeImages = 'true'`. -/
theorem C1_amended_witness :
    ("xml" ≠ "" ∧ "xml" ≠ "text" ∧ "xml" ≠ "markdown" ∧
      "xml" ≠ "images" ∧ "xml" ≠ "ocr") ∧
    handler ⟨"POST", some ⟨['f'], 5, ⟨[]⟩⟩, some "xml", none, some "true"⟩
        (fun _ => Except.ok []) "t" =
      (Resp.error 400 "Invalid format specified", ⟨0, 1, [], 0⟩) :=
  ⟨by decide,
   C1_amended ⟨['f'], 5, ⟨[]⟩⟩ "xml" none (some "true") (fun _ => Except.ok []) "t"
     (by decide) (by decide) (by decide) (by decide) (by decide)⟩

/-! ## Claims C6 and C7: invariants of the Raster Extractor output -/

/-- The order the comparator is meant to realize: ascending page number;
within a page, `page` entries before `image` (embedded) entries. -/
def imgOrd (a b : ExtractedImage) : Prop :=
  a.pageNumber < b.pageNumber ∨
    (a.pageNumber = b.pageNumber ∧ (a.type = ImgKind.page ∨ b.type = ImgKind.image))

theorem imgOrd_of_le {a b : ExtractedImage} (h : imgLe a b = true) : imgOrd a b := by
  unfold imgLe cmpImg at h
  by_cases hpn : a.pageNumber = b.pageNumber
  · simp only [hpn, ne_eq, not_true_eq_false, if_false, decide_eq_true_eq] at h
    by_cases ht : a.type = ImgKind.page
    · exact Or.inr ⟨hpn, Or.inl ht⟩
    · simp only [ht, if_false] at h
      omega
  · simp only [ne_eq, hpn, not_false_eq_true, if_true, decide_eq_true_eq] at h
    exact Or.inl (by omega)

theorem imgOrd_of_not_le {a b : ExtractedImage} (h : imgLe a b = false) : imgOrd b a := by
  unfold imgLe cmpImg at h
  by_cases hpn : a.pageNumber = b.pageNumber
  · simp only [hpn, ne_eq, not_true_eq_false, if_false, decide_eq_false_iff_not] at h
    by_cases ht : a.type = ImgKind.page
    · simp only [ht, if_true] at h
      omega
    · have ha : a.type = ImgKind.image := by
        cases hat : a.type
        · exact absurd hat ht
        · rfl
      exact Or.inr ⟨hpn.symm, Or.inr ha⟩
  · simp only [ne_eq, hpn, not_false_eq_true, if_true, decide_eq_false_iff_not] at h
    exact Or.inl (by omega)

theorem imgOrd_trans {a b c : ExtractedImage} (h1 : imgOrd a b) (h2 : imgOrd b c) :
    imgOrd a c := by
  rcases h1 with h1 | ⟨e1, k1⟩
  · rcases h2 with h2 | ⟨e2, _⟩
    · exact Or.inl (by omega)
    · exact Or.inl (by omega)
  · rcases h2 with h2 | ⟨e2, k2⟩
    · exact Or.inl (by omega)
    · refine Or.inr ⟨by omega, ?_⟩
      rcases k1 with hap | hbi
      · exact Or.inl hap
      · rcases k2 with hbp | hci
        · rw [hbi] at hbp
          exact absurd hbp (by decide)
        · exact Or.inr hci

theorem mem_insertS {a x : ExtractedImage} : ∀ {l : List ExtractedImage},
    x ∈ insertS a l → x = a ∨ x ∈ l := by
  intro l
  induction l with
  | nil => simp [insertS]
  | cons b bs ih =>
    simp only [insertS]
    by_cases hle : imgLe a b = true
    · rw [if_pos hle]
      intro hx
      rcases List.mem_cons.mp hx with rfl | hx'
      · exact Or.inl rfl
      · exact Or.inr hx'
    · rw [if_neg hle]
      intro hx
      rcases List.mem_cons.mp hx with rfl | hx'
      · exact Or.inr (List.mem_cons_self _ _)
      · rcases ih hx' with rfl | hxb
        · exact Or.inl rfl
        · exact Or.inr (List.mem_cons_of_mem _ hxb)

theorem pairwise_insertS {a : ExtractedImage} : ∀ {l : List ExtractedImage},
    List.Pairwise imgOrd l → List.Pairwise imgOrd (insertS a l) := by
  intro l
  induction l with
  | nil => intro _; simp [insertS]
  | cons b bs ih =>
    intro h
    rcases List.pairwise_cons.mp h with ⟨hb, hbs⟩
    by_cases hle : imgLe a b = true
    · simp only [insertS, if_pos hle]
      refine List.pairwise_cons.mpr ⟨?_, h⟩
      intro y hy
      rcases List.mem_cons.mp hy with rfl | hy'
      · exact imgOrd_of_le hle
      · exact imgOrd_trans (imgOrd_of_le hle) (hb y hy')
    · simp only [insertS, if_neg hle]
      refine List.pairwise_cons.mpr ⟨?_, ih hbs⟩
      intro y hy
      rcases mem_insertS hy with rfl | hy'
      · exact imgOrd_of_not_le (Bool.eq_false_iff.mpr hle)
      · exact hb y hy'

theorem pairwise_jsSort : ∀ l : List ExtractedImage, List.Pairwise imgOrd (jsSort l) := by
  intro l
  induction l with
  | nil => simp [jsSort]
  | cons a as ih => exact pairwise_insertS ih

theorem mem_jsSort {x : ExtractedImage} : ∀ {l : List ExtractedImage},
    x ∈ jsSort l → x ∈ l := by
  intro l
  induction l with
  | nil => simp [jsSort]
  | cons a as ih =>
    intro hx
    rcases mem_insertS hx with rfl | hx'
    · exact List.mem_cons_self _ _
    · exact List.mem_cons_of_mem _ (ih hx')

/-- C6: in the sequence returned by `extractImages`, every pair (in
order) has non-decreasing page numbers, and within equal page numbers no
EMBEDDED (`'image'`) entry precedes a PAGE entry. -/
theorem C6_ordering_invariant (doc : PDFDoc) :
    List.Pairwise
      (fun a b : ExtractedImage =>
        a.pageNumber ≤ b.pageNumber ∧
          ¬(a.pageNumber = b.pageNumber ∧ a.type = ImgKind.image ∧ b.type = ImgKind.page))
      (extractImages doc).images := by
  refine (pairwise_jsSort (rawImages doc)).imp ?_
  intro a b hab
  rcases hab with hlt | ⟨he, hk⟩
  · exact ⟨Nat.le_of_lt hlt, fun ⟨he', _, _⟩ => by omega⟩
  · refine ⟨Nat.le_of_eq he, ?_⟩
    rintro ⟨-, hai, hbp⟩
    rcases hk with hap | hbi
    · rw [hai] at hap
      exact absurd hap (by decide)
    · rw [hbp] at hbi
      exact absurd hbi (by decide)

theorem pageExtracted_embedded_size {i : Nat} {p : PDFPage} {x : ExtractedImage}
    (hx : x ∈ pageExtracted i p) (ht : x.type = ImgKind.image) :
    50 < x.width ∧ 50 < x.height := by
  unfold pageExtracted at hx
  rcases List.mem_append.mp hx with hl | hr
  · rcases List.mem_filterMap.mp hl with ⟨o, _, heq⟩
    cases o with
    | none => exact absurd heq (by simp)
    | some e =>
      dsimp only at heq
      by_cases hc : e.hasData = true ∧ 50 < e.width ∧ 50 < e.height
      · rw [if_pos hc] at heq
        cases heq
        exact ⟨hc.2.1, hc.2.2⟩
      · rw [if_neg hc] at heq
        exact absurd heq (by simp)
  · cases hrnd : p.render with
    | none =>
      rw [hrnd] at hr
      simp at hr
    | some pr =>
      rw [hrnd] at hr
      rcases List.mem_singleton.mp hr with rfl
      simp at ht

/-- C7: every entry of the `extractImages` output tagged as an embedded
image has width > 50 and height > 50 — embedded raster objects at or
below the 50-pixel threshold (or with missing pixel data, which fail the
`image.data` test) never yield an output entry. -/
theorem C7_threshold_invariant (doc : PDFDoc) (img : ExtractedImage)
    (hmem : img ∈ (extractImages doc).images) (ht : img.type = ImgKind.image) :
    50 < img.width ∧ 50 < img.height := by
  have hraw : img ∈ rawImages doc := mem_jsSort hmem
  unfold rawImages at hraw
  -- membership in the page-ordered concatenation comes from some page
  suffices h : ∀ (n : Nat) (ps : List PDFPage),
      img ∈ (enumFrom n ps).foldr (fun ip acc => pageExtracted ip.1 ip.2 ++ acc) [] →
      50 < img.width ∧ 50 < img.height by
    exact h 1 doc.pages hraw
  intro n ps
  induction ps generalizing n with
  | nil => simp [enumFrom]
  | cons p ps ih =>
    intro hmem'
    simp only [enumFrom, List.foldr_cons] at hmem'
    rcases List.mem_append.mp hmem' with hp | hrest
    · exact pageExtracted_embedded_size hp ht
    · exact ih (n + 1) hrest

/-- Witness for C7 on a one-page document with one qualifying embedded
image. -/
theorem C7_threshold_invariant_witness :
    ((⟨"E1", ImgKind.image, 1, 100, 100⟩ : ExtractedImage) ∈
        (extractImages ⟨[⟨[], [some ⟨true, 100, 100, "E1"⟩], some ⟨"P1", 10, 10⟩⟩]⟩).images ∧
      (⟨"E1", ImgKind.image, 1, 100, 100⟩ : ExtractedImage).type = ImgKind.image) ∧
    (50 < (⟨"E1", ImgKind.image, 1, 100, 100⟩ : ExtractedImage).width ∧
      50 < (⟨"E1", ImgKind.image, 1, 100, 100⟩ : ExtractedImage).height) :=
  ⟨⟨by decide, by decide⟩,
   C7_threshold_invariant ⟨[⟨[], [some ⟨true, 100, 100, "E1"⟩], some ⟨"P1", 10, 10⟩⟩]⟩
     ⟨"E1", ImgKind.image, 1, 100, 100⟩ (by decide) (by decide)⟩

/-! ## Claim C3: spacing invariant of the Text Reconstructor -/

/-- Invariant maintained by the fold in `reconstructPage` when every
token is non-empty and whitespace-free: no double space, and a non-empty
accumulator starts with a single space and ends with a non-whitespace
character. -/
def goodAcc (acc : List Char) : Prop :=
  noDoubleSpace acc ∧
    (acc ≠ [] → acc.head? = some ' ' ∧ ∃ c, acc.getLast? = some c ∧ jsWs c = false)

theorem noDouble_of_wsFree (t : List Char) (h : ∀ c ∈ t, jsWs c = false) :
    noDoubleSpace t := by
  induction t with
  | nil => simp [noDoubleSpace]
  | cons a t ih =>
    cases t with
    | nil => simp [noDoubleSpace]
    | cons b t2 =>
      rw [noDoubleSpace, List.chain'_cons]
      constructor
      · rintro ⟨ha, -⟩
        have := h a (List.mem_cons_self _ _)
        rw [ha] at this
        exact absurd this (by decide)
      · exact ih (fun c hc => h c (List.mem_cons_of_mem _ hc))

theorem spaceStep_good_eq {acc w : List Char} (hg : goodAcc acc) :
    spaceStep acc w = acc ++ ' ' :: w := by
  unfold spaceStep
  by_cases hp : endsPunct acc = true
  · rw [if_pos hp]
  · rw [if_neg hp]
    have hw' : endsWs acc = false := by
      by_cases hacc : acc = []
      · subst hacc; rfl
      · obtain ⟨-, c, hlast, hc⟩ := hg.2 hacc
        unfold endsWs
        rw [hlast]
        exact hc
    rw [if_neg (by simp [hw'])]

theorem goodAcc_step {acc w : List Char} (hw : w ≠ [])
    (hwf : ∀ c ∈ w, jsWs c = false) (hg : goodAcc acc) :
    goodAcc (spaceStep acc w) := by
  rw [spaceStep_good_eq hg]
  constructor
  · rw [noDoubleSpace, List.chain'_append]
    refine ⟨hg.1, ?_, ?_⟩
    · rw [List.chain'_cons']
      refine ⟨?_, noDouble_of_wsFree w hwf⟩
      intro y hy
      rintro ⟨-, hy'⟩
      have hyw : y ∈ w := by
        cases w with
        | nil => simp at hy
        | cons c cs =>
          simp at hy
          subst hy
          exact List.mem_cons_self _ _
      have := hwf y hyw
      rw [hy'] at this
      exact absurd this (by decide)
    · intro x hx y _
      rintro ⟨hx', -⟩
      have hacc : acc ≠ [] := by
        intro h0
        rw [h0] at hx
        simp at hx
      obtain ⟨-, c, hlast, hc⟩ := hg.2 hacc
      rw [Option.mem_def] at hx
      rw [hx] at hlast
      obtain rfl := Option.some.inj hlast
      rw [hx'] at hc
      exact absurd hc (by decide)
  · intro _
    constructor
    · cases acc with
      | nil => rfl
      | cons a as =>
        have := (hg.2 (by simp)).1
        simpa using this
    · refine ⟨w.getLast hw, ?_, hwf _ (List.getLast_mem hw)⟩
      have hsplit : acc ++ ' ' :: w = (acc ++ [' ']) ++ w := by simp
      rw [hsplit, List.getLast?_append_of_ne_nil (acc ++ [' ']) hw,
        List.getLast?_eq_getLast w hw]

theorem fold_good : ∀ (items : List (List Char)) (acc : List Char),
    (∀ t ∈ items, t ≠ [] ∧ ∀ c ∈ t, jsWs c = false) → goodAcc acc →
    goodAcc (items.foldl spaceStep acc) := by
  intro items
  induction items with
  | nil => exact fun acc _ hg => hg
  | cons w ws ih =>
    intro acc hts hg
    simp only [List.foldl_cons]
    have hw := hts w (List.mem_cons_self _ _)
    exact ih _ (fun t ht => hts t (List.mem_cons_of_mem _ ht)) (goodAcc_step hw.1 hw.2 hg)

theorem spaceStep_ne_nil {acc w : List Char} (h : acc ≠ []) : spaceStep acc w ≠ [] := by
  unfold spaceStep
  split
  · simp
  · split
    · simp [h]
    · simp

theorem fold_ne_nil : ∀ (items : List (List Char)) (acc : List Char),
    acc ≠ [] → List.foldl spaceStep acc items ≠ [] := by
  intro items
  induction items with
  | nil => exact fun _ h => h
  | cons w ws ih =>
    intro acc h
    simp only [List.foldl_cons]
    exact ih _ (spaceStep_ne_nil h)

theorem reconstructPage_ne_nil {page : List (List Char)} (h : page ≠ []) :
    reconstructPage page ≠ [] := by
  cases page with
  | nil => exact absurd rfl h
  | cons w ws =>
    unfold reconstructPage
    simp only [List.foldl_cons]
    have hstep : spaceStep [] w = ' ' :: w := rfl
    rw [hstep]
    exact fold_ne_nil ws (' ' :: w) (by simp)

/-- Counterexample to C3: on the token sequence `["a.", " b"]` the
reconstructed page string is `" a.  b"`, which contains two consecutive
spaces and starts with whitespace — for a one-token page `["a."]` the
leading space appears as well, since the fold starts from the empty
accumulator and always prepends a space before the first token. -/
theorem C3_counterexample :
    reconstructPage [['a', '.'], [' ', 'b']] = [' ', 'a', '.', ' ', ' ', 'b'] ∧
    ¬ noDoubleSpace (reconstructPage [['a', '.'], [' ', 'b']]) ∧
    (reconstructPage [['a', '.'], [' ', 'b']]).head? = some ' ' := by
  refine ⟨by decide, ?_, by decide⟩
  intro h
  rw [noDoubleSpace, show reconstructPage [['a', '.'], [' ', 'b']] =
    [' ', 'a', '.', ' ', ' ', 'b'] from by decide] at h
  rw [List.chain'_cons, List.chain'_cons, List.chain'_cons, List.chain'_cons,
    List.chain'_cons] at h
  exact h.2.2.2.1 ⟨rfl, rfl⟩

/-- C3 as amended: for token sequences whose tokens are non-empty and
contain no whitespace, the reconstructed page string has no two
consecutive spaces and does not end in whitespace; but (contrary to the
claim) a non-empty token sequence always yields a page string starting
with a space — the leading space is only removed later by the
document-level trim in `extractText`.  Tokens containing whitespace can
additionally produce double spaces. -/
theorem C3_amended (page : List (List Char))
    (h : ∀ t ∈ page, t ≠ [] ∧ ∀ c ∈ t, jsWs c = false) :
    noDoubleSpace (reconstructPage page) ∧
    (∀ c, (reconstructPage page).getLast? = some c → jsWs c = false) ∧
    (page ≠ [] → (reconstructPage page).head? = some ' ') := by
  have hg : goodAcc (reconstructPage page) := by
    unfold reconstructPage
    exact fold_good page [] h ⟨by simp [noDoubleSpace], by simp⟩
  refine ⟨hg.1, ?_, ?_⟩
  · intro c hc
    have hne : reconstructPage page ≠ [] := by
      intro h0
      rw [h0] at hc
      simp at hc
    obtain ⟨-, c', hlast, hc'⟩ := hg.2 hne
    rw [hlast] at hc
    obtain rfl := Option.some.inj hc
    exact hc'
  · intro hpage
    exact (hg.2 (reconstructPage_ne_nil hpage)).1

/-- Witness for C3 as amended on the page `["Hi", "you."]`. -/
theorem C3_amended_witness :
    (∀ t ∈ [['H', 'i'], ['y', 'o', 'u', '.']], t ≠ [] ∧ ∀ c ∈ t, jsWs c = false) ∧
    (noDoubleSpace (reconstructPage [['H', 'i'], ['y', 'o', 'u', '.']]) ∧
      (∀ c, (reconstructPage [['H', 'i'], ['y', 'o', 'u', '.']]).getLast? = some c →
        jsWs c = false) ∧
      ([['H', 'i'], ['y', 'o', 'u', '.']] ≠ ([] : List (List Char)) →
        (reconstructPage [['H', 'i'], ['y', 'o', 'u', '.']]).head? = some ' ')) :=
  ⟨by decide, C3_amended [['H', 'i'], ['y', 'o', 'u', '.']] (by decide)⟩

/-! ## Claim C4: page joining and trimming in `extractText` -/

theorem jsTrim_append_nn (x : List Char) : jsTrim (x ++ ['\n', '\n']) = jsTrim x := by
  unfold jsTrim
  rw [List.dropWhile_append]
  by_cases hx : (List.dropWhile jsWs x).isEmpty
  · rw [if_pos hx]
    have h2 : List.dropWhile jsWs ['\n', '\n'] = [] := by decide
    have hx' : List.dropWhile jsWs x = [] := by
      cases h : List.dropWhile jsWs x with
      | nil => rfl
      | cons a l => rw [h] at hx; simp at hx
    rw [h2, hx']
  · rw [if_neg hx]
    have hrev : (List.dropWhile jsWs x ++ ['\n', '\n']).reverse =
        '\n' :: '\n' :: (List.dropWhile jsWs x).reverse := by simp
    rw [hrev, List.dropWhile_cons, if_pos (by decide), List.dropWhile_cons,
      if_pos (by decide)]

theorem foldl_extract (pages : List (List (List Char))) :
    ∀ acc : List Char,
      pages.foldl (fun full p => full ++ reconstructPage p ++ ['\n', '\n']) acc =
        acc ++ pages.foldr (fun p r => reconstructPage p ++ '\n' :: '\n' :: r) [] := by
  induction pages with
  | nil => intro acc; simp
  | cons p ps ih =>
    intro acc
    simp only [List.foldl_cons, List.foldr_cons, ih]
    simp

theorem foldr_join (pages : List (List (List Char))) (h : pages ≠ []) :
    pages.foldr (fun p r => reconstructPage p ++ '\n' :: '\n' :: r) [] =
      joinSep ['\n', '\n'] (pages.map reconstructPage) ++ ['\n', '\n'] := by
  induction pages with
  | nil => exact absurd rfl h
  | cons p ps ih =>
    cases ps with
    | nil => simp [joinSep]
    | cons q qs =>
      simp only [List.foldr_cons, List.map_cons, joinSep, ih (by simp)]
      simp

/-- The untrimmed per-page fold followed by the document-level trim
agrees with joining the untrimmed page strings by one blank line and
trimming the join. -/
theorem extractText_eq_join (pages : List (List (List Char))) :
    extractText pages = jsTrim (joinSep ['\n', '\n'] (pages.map reconstructPage)) := by
  unfold extractText
  rw [foldl_extract pages [], List.nil_append]
  cases pages with
  | nil => rfl
  | cons p ps => rw [foldr_join _ (by simp), jsTrim_append_nn]

theorem jsTrim_allWs {l : List Char} (h : ∀ c ∈ l, jsWs c = true) : jsTrim l = [] := by
  unfold jsTrim
  rw [List.dropWhile_eq_nil_iff.mpr h]
  rfl

theorem mem_joinSep_rep : ∀ (n : Nat) (c : Char),
    c ∈ joinSep ['\n', '\n'] (List.replicate n ([] : List Char)) → c = '\n' := by
  intro n
  induction n with
  | zero => simp [joinSep]
  | succ m ih =>
    intro c hc
    cases m with
    | zero => simp [joinSep] at hc
    | succ k =>
      rw [List.replicate_succ, List.replicate_succ] at hc
      simp only [joinSep, List.nil_append, List.cons_append] at hc
      rcases List.mem_cons.mp hc with rfl | hc2
      · rfl
      rcases List.mem_cons.mp hc2 with rfl | hc3
      · rfl
      · exact ih c (by rw [List.replicate_succ]; exact hc3)

/-- Counterexample to C4: the code does not trim the per-page strings
before joining.  On the two-page document `[["a"], ["b"]]` it produces
`"a\n\n b"` (the second page's leading space survives), whereas the claim
(per-page trim, then join with one blank line, then final trim) demands
`"a\n\nb"`. -/
theorem C4_counterexample :
    extractText [[['a']], [['b']]] = ['a', '\n', '\n', ' ', 'b'] ∧
    specExtractText [[['a']], [['b']]] = ['a', '\n', '\n', 'b'] ∧
    extractText [[['a']], [['b']]] ≠ specExtractText [[['a']], [['b']]] :=
  ⟨by decide, by decide, by decide⟩

/-- C4 as amended: the fold appends `"\n\n"` after every *untrimmed* page
string and trims only the final concatenation — equivalently, the result
is the trim of the untrimmed per-page strings joined by exactly one blank
line (so an interior page's leading space survives after each blank
line); a document with zero pages or all-empty pages still yields the
empty string, not an error. -/
theorem C4_amended (pages : List (List (List Char))) :
    extractText pages = jsTrim (joinSep ['\n', '\n'] (pages.map reconstructPage)) ∧
    (∀ n : Nat, extractText (List.replicate n []) = []) := by
  refine ⟨extractText_eq_join pages, ?_⟩
  intro n
  rw [extractText_eq_join, List.map_replicate]
  have hrp : reconstructPage [] = [] := rfl
  rw [hrp]
  exact jsTrim_allWs (fun c hc => by rw [mem_joinSep_rep n c hc]; decide)

/-! ## Shared assembly lemmas -/

theorem assemble_text_eq (file : FileInfo) (a b c : Bool) (pre : Option ExtractResult)
    (r : ResultObj) (pw now : String) :
    (assemble file a b c pre r pw now).text = r.text := by
  unfold assemble
  split <;> split <;> rfl

theorem assemble_images_true (file : FileInfo) (b : Bool) (pre : Option ExtractResult)
    (r : ResultObj) (pw now : String) :
    (assemble file true b false pre r pw now).images = some (pre.getD ⟨[]⟩).images := by
  unfold assemble
  rw [if_pos (show (true = true) ∧ ¬(false = true) by simp)]
  split <;> rfl

theorem assemble_metadata_true (file : FileInfo) (a c : Bool) (pre : Option ExtractResult)
    (r : ResultObj) (pw now : String) :
    (assemble file a true c pre r pw now).metadata =
      some ⟨file.size, file.originalname, now, pw, "pdf.js-enhanced"⟩ := rfl

/-! ## Claim C2: per-image recognition failure handling in the OCR batch -/

/-- Counterexample to C2: on a document that rasterizes to two images,
a recognition failure on the first image is *not* skipped — the rejection
propagates to the outer catch and the whole request fails with a 500
error, the second image never being recognized (`ocrRuns = 1`), even
though it would have yielded text.  The claim demands the failure be
recovered locally and the request succeed. -/
theorem C2_counterexample :
    handler ⟨"POST", some ⟨['f'], 5,
        ⟨[⟨[], [some ⟨true, 100, 100, "E1"⟩], some ⟨"P1", 10, 10⟩⟩]⟩⟩,
      some "ocr", none, none⟩
      (fun d => if d = "P1" then Except.error "boom" else Except.ok ['h', 'i']) "t" =
      (Resp.error 500 "Error processing PDF: boom", ⟨0, 1, ["P1", "E1"], 1⟩) := by
  decide

theorem ocrLoopC_ok (results : String → List Char) : ∀ ds : List String,
    ocrLoopC (fun d => Except.ok (results d)) ds =
      (Except.ok ((ds.map results).filter (fun t => decide (jsTrim t ≠ []))), ds.length) := by
  intro ds
  induction ds with
  | nil => rfl
  | cons d ds ih =>
    simp only [ocrLoopC, ih, List.map_cons, List.filter_cons, List.length_cons]
    simp [Except.map]

/-- C2 as amended: a recognition *rejection* on any image aborts the
whole OCR batch as a request-level 500 error (see the counterexample);
what is recovered locally is only an image whose recognition *succeeds
with empty-trimming text* — such images are skipped and processing
continues.  When recognition yields a value for every image, the request
succeeds with the blank-line join of the non-empty texts; in particular,
if every image yields empty text the request still succeeds with
`{ text: "" }`, not an error. -/
theorem C2_amended (file : FileInfo) (im ii : Option String)
    (results : String → List Char) (now : String) :
    (∃ r, (handler ⟨"POST", some file, some "ocr", im, ii⟩
        (fun d => Except.ok (results d)) now).1 = Resp.ok r ∧
      r.text = some (joinSep ['\n', '\n']
        ((((extractImages file.doc).images.map (·.data)).map results).filter
          (fun t => decide (jsTrim t ≠ []))))) ∧
    ((∀ d, jsTrim (results d) = []) →
      ∃ r, (handler ⟨"POST", some file, some "ocr", im, ii⟩
          (fun d => Except.ok (results d)) now).1 = Resp.ok r ∧ r.text = some []) := by
  have hmain : ∃ r, (handler ⟨"POST", some file, some "ocr", im, ii⟩
      (fun d => Except.ok (results d)) now).1 = Resp.ok r ∧
      r.text = some (joinSep ['\n', '\n']
        ((((extractImages file.doc).images.map (·.data)).map results).filter
          (fun t => decide (jsTrim t ≠ [])))) := by
    unfold handler
    simp +decide [resolveFormat]
    by_cases hii : ii = some "true"
    · simp only [hii, if_pos rfl]
      rw [ocrLoopC_ok]
      exact ⟨_, rfl, by rw [assemble_text_eq]; simp [Function.comp]⟩
    · simp only [if_neg hii]
      rw [ocrLoopC_ok]
      exact ⟨_, rfl, by rw [assemble_text_eq]; simp [Function.comp]⟩
  refine ⟨hmain, ?_⟩
  intro hall
  obtain ⟨r, h1, h2⟩ := hmain
  refine ⟨r, h1, ?_⟩
  rw [h2]
  have hf : ∀ l : List String,
      ((l.map results).filter (fun t => decide (jsTrim t ≠ []))) = [] := by
    intro l
    induction l with
    | nil => rfl
    | cons d ds ih =>
      rw [List.map_cons, List.filter_cons]
      simp only [hall d, ih]
      simp
  rw [hf]
  rfl

/-- Witness for C2 as amended: an all-blank recognizer yields
`{ text: "" }`, not an error. -/
theorem C2_amended_witness :
    (∀ d : String, jsTrim ((fun _ => [' ']) d : List Char) = []) ∧
    (∃ r, (handler ⟨"POST", some ⟨['f'], 5, ⟨[⟨[], [], some ⟨"P1", 10, 10⟩⟩]⟩⟩,
        some "ocr", none, none⟩
        (fun d => Except.ok ((fun _ => [' ']) d)) "t").1 = Resp.ok r ∧
      r.text = some []) :=
  ⟨fun _ => rfl,
   (C2_amended ⟨['f'], 5, ⟨[⟨[], [], some ⟨"P1", 10, 10⟩⟩]⟩⟩ none none
     (fun _ => [' ']) "t").2 (fun _ => rfl)⟩

/-! ## Claim C5: single rasterization for OCR with includeImages -/

/-- C5: for `format = "ocr"` with `includeImages = 'true'`, the Raster
Extractor runs exactly once (`imageRuns = 1`), the payloads fed to
recognition are exactly the extracted sequence's payloads in order, and
on success the result's `images` field is that same extracted sequence. -/
theorem C5_single_rasterization (file : FileInfo) (im : Option String)
    (recognize : String → Except String (List Char)) (now : String) :
    (handler ⟨"POST", some file, some "ocr", im, some "true"⟩ recognize now).2.imageRuns = 1 ∧
    (handler ⟨"POST", some file, some "ocr", im, some "true"⟩ recognize now).2.ocrInput =
      (extractImages file.doc).images.map (·.data) ∧
    ∀ r, (handler ⟨"POST", some file, some "ocr", im, some "true"⟩ recognize now).1 =
        Resp.ok r →
      r.images = some (extractImages file.doc).images := by
  unfold handler
  simp +decide [resolveFormat]
  rcases hloop : ocrLoopC recognize (List.map (fun x => x.data) (extractImages file.doc).images)
    with ⟨res, n⟩
  cases res with
  | error e =>
    rw [hloop]
    refine ⟨rfl, rfl, ?_⟩
    intro r hr
    cases hr
  | ok texts =>
    rw [hloop]
    refine ⟨rfl, rfl, ?_⟩
    intro r hr
    cases hr
    exact assemble_images_true file _ _ _ _ now

/-- Witness for C5 on a one-page document with a successful recognizer. -/
theorem C5_single_rasterization_witness :
    ((handler ⟨"POST", some ⟨['f'], 5, ⟨[⟨[], [], some ⟨"P1", 10, 10⟩⟩]⟩⟩,
        some "ocr", none, some "true"⟩ (fun _ => Except.ok ['h', 'i']) "t").1 =
      Resp.ok ⟨some ['h', 'i'], some [⟨"P1", ImgKind.page, 1, 10, 10⟩], none⟩) ∧
    (⟨some ['h', 'i'], some [⟨"P1", ImgKind.page, 1, 10, 10⟩], none⟩ : ResultObj).images =
      some (extractImages ⟨[⟨[], [], some ⟨"P1", 10, 10⟩⟩]⟩).images :=
  ⟨by decide,
   (C5_single_rasterization ⟨['f'], 5, ⟨[⟨[], [], some ⟨"P1", 10, 10⟩⟩]⟩⟩ none
     (fun _ => Except.ok ['h', 'i']) "t").2.2
     ⟨some ['h', 'i'], some [⟨"P1", ImgKind.page, 1, 10, 10⟩], none⟩ (by decide)⟩

/-! ## Claim C8: metadata contents on successful requests -/

/-- Modelled from the spec: the `processedWith` table of §4.4 — `text`
for TEXT, `markdown` for MARKDOWN, the extraction-method identifier for
IMAGES, and the combined rasterization+recognition identifier for OCR. -/
def specProcessedWith (s : String) : String :=
  if s = "images" then "pdf.js-enhanced"
  else if s = "ocr" then "pdf.js-enhanced+tesseract.js"
  else s

/-- C8: every successful response to a request with
`includeMetadata = 'true'` carries a metadata object with the uploaded
file's size and name, the completion timestamp produced by the clock
(`new Date().toISOString()`, an ISO-8601 string), and `processedWith`
equal to the spec's table at the resolved format. -/
theorem C8_metadata_contract (file : FileInfo) (fmt ii : Option String)
    (recognize : String → Except String (List Char)) (now : String) :
    ∀ r, (handler ⟨"POST", some file, fmt, some "true", ii⟩ recognize now).1 = Resp.ok r →
      r.metadata = some ⟨file.size, file.originalname, now,
        specProcessedWith (resolveFormat fmt), "pdf.js-enhanced"⟩ := by
  intro r hr
  unfold handler at hr
  by_cases h1 : resolveFormat fmt = "text"
  · simp +decide [h1, specProcessedWith] at hr ⊢
    cases hr
    exact assemble_metadata_true ..
  · by_cases h2 : resolveFormat fmt = "markdown"
    · simp +decide [h2, specProcessedWith] at hr ⊢
      cases hr
      exact assemble_metadata_true ..
    · by_cases h3 : resolveFormat fmt = "images"
      · simp +decide [h3, specProcessedWith] at hr ⊢
        cases hr
        exact assemble_metadata_true ..
      · by_cases h4 : resolveFormat fmt = "ocr"
        · simp +decide [h4, h1, h2, h3, specProcessedWith] at hr ⊢
          by_cases hii : ii = some "true" <;>
            [simp +decide [hii] at hr; simp only [if_neg hii] at hr] <;>
          · rcases hloop : ocrLoopC recognize
                (List.map (fun x => x.data) (extractImages file.doc).images) with ⟨res, n⟩
            rw [hloop] at hr
            cases res with
            | error e => cases hr
            | ok texts =>
              cases hr
              exact assemble_metadata_true ..
        · simp +decide [h1, h2, h3, h4] at hr

/-- Witness for C8 at `format = "text"` on an empty document. -/
theorem C8_metadata_contract_witness :
    ((handler ⟨"POST", some ⟨['f'], 5, ⟨[]⟩⟩, some "text", some "true", none⟩
        (fun _ => Except.ok []) "t").1 =
      Resp.ok ⟨some [], none, some ⟨5, ['f'], "t", "text", "pdf.js-enhanced"⟩⟩) ∧
    (⟨some [], none, some ⟨5, ['f'], "t", "text", "pdf.js-enhanced"⟩⟩ : ResultObj).metadata =
      some ⟨5, ['f'], "t", specProcessedWith (resolveFormat (some "text")), "pdf.js-enhanced"⟩ :=
  ⟨by decide,
   C8_metadata_contract ⟨['f'], 5, ⟨[]⟩⟩ (some "text") none (fun _ => Except.ok []) "t"
     ⟨some [], none, some ⟨5, ['f'], "t", "text", "pdf.js-enhanced"⟩⟩ (by decide)⟩

end PdfExtractor
